import Mathlib

/-!
Verification development for `eRCaGuy_Tee` (`src/Tee.py`).

The shallow embedding below models the program state functionally:
strings are lists of characters (the program writes ASCII text in every
scenario considered, so one character stands for one byte), the
filesystem is an association list from paths to contents, and the
mutable `Tee` / `TeeToRAM` objects become records that every operation
threads explicitly.
-/

namespace TeeSpec

/-- Character strings, as lists of characters (one character = one byte). -/
abbrev Str := List Char

/-- Index of the last occurrence of `c` in `s` (Python `str.rfind`,
with `none` standing for the return value `-1`). -/
def lastIdxOf (c : Char) : Str → Option Nat
  | [] => none
  | a :: as =>
    match lastIdxOf c as with
    | some i => some (i + 1)
    | none => if a = c then some 0 else none

/-- Interpret an optional index the way Python `rfind` results compare:
`none` is `-1`. -/
def idxVal : Option Nat → Int
  | none => -1
  | some n => (n : Int)

/-- `os.path.splitext` for POSIX paths (`sep = slash`, `extsep = dot`,
no `altsep`): find the last slash and the last dot; the dot starts an
extension only if it comes after the last slash and some character
strictly between the start of the final segment and the dot is not a
dot (the leading-dots-are-not-an-extension rule for hidden files). -/
def splitext (p : Str) : Str × Str :=
  let sepIndex := lastIdxOf '/' p
  let dotIndex := lastIdxOf '.' p
  match dotIndex with
  | none => (p, [])
  | some d =>
    if idxVal sepIndex < (d : Int) then
      let start :=
        match sepIndex with
        | none => 0
        | some s => s + 1
      if ((p.drop start).take (d - start)).any (fun ch => ch ≠ '.') then
        (p.take d, p.drop d)
      else
        (p, [])
    else
      (p, [])

/-- Decimal digits of a natural number, as characters. -/
def natChars (n : Nat) : Str := (Nat.repr n).data

/-- `Tee._get_numbered_path` (Tee.py lines 109-116): split off the
extension with `os.path.splitext` and build `root_number` followed by
the extension. -/
def get_numbered_path (path_original : Str) (logfile_number : Nat) : Str :=
  let root := (splitext path_original).1
  let ext := (splitext path_original).2
  root ++ '_' :: (natChars logfile_number ++ ext)

/-- Start index of the final path segment: one past the last slash,
or `0` when the path has no slash. -/
def basenameStart (p : Str) : Nat :=
  match lastIdxOf '/' p with
  | none => 0
  | some s => s + 1

/-- The claim, in its own words: split at the last dot occurring in the
final path segment (never at dots in parent directories) and insert the
underscore-number there; when the final segment has no dot, append the
suffix at the (empty) extension boundary, i.e. at the end. This
definition exists to be compared with `get_numbered_path`, which
embeds the source. -/
def numbered_path_spec (p : Str) (n : Nat) : Str :=
  match lastIdxOf '.' (p.drop (basenameStart p)) with
  | none => p ++ '_' :: natChars n
  | some d =>
    p.take (basenameStart p + d) ++ '_' :: (natChars n ++ p.drop (basenameStart p + d))

theorem lastIdxOf_append (c : Char) (xs ys : Str) :
    lastIdxOf c (xs ++ ys) =
      match lastIdxOf c ys with
      | some i => some (xs.length + i)
      | none => lastIdxOf c xs := by
  induction xs with
  | nil =>
    cases h : lastIdxOf c ys with
    | none => simp [h, lastIdxOf]
    | some i => simp [h]
  | cons a as ih =>
    show lastIdxOf c (a :: (as ++ ys)) = _
    rw [lastIdxOf, ih]
    cases h : lastIdxOf c ys with
    | none => simp [h, lastIdxOf]
    | some i =>
      simp only [h]
      have : as.length + i + 1 = (a :: as).length + i := by
        simp [List.length_cons]; omega
      simp [this]

theorem lastIdxOf_lt_length (c : Char) (p : Str) (i : Nat)
    (h : lastIdxOf c p = some i) : i < p.length := by
  induction p generalizing i with
  | nil => simp [lastIdxOf] at h
  | cons a as ih =>
    rw [lastIdxOf] at h
    cases h' : lastIdxOf c as with
    | some j =>
      rw [h'] at h
      simp only [Option.some.injEq] at h
      have := ih j h'
      simp [← h, List.length_cons]
      omega
    | none =>
      rw [h'] at h
      by_cases hac : a = c
      · simp [hac] at h
        simp [← h]
      · simp [hac] at h

theorem basenameStart_le_length (p : Str) : basenameStart p ≤ p.length := by
  unfold basenameStart
  cases h : lastIdxOf '/' p with
  | none => simp
  | some s =>
    have hs := lastIdxOf_lt_length '/' p s h
    show s + 1 ≤ p.length
    omega

theorem take_basenameStart_length (p : Str) :
    (p.take (basenameStart p)).length = basenameStart p := by
  rw [List.length_take]
  have := basenameStart_le_length p
  omega

theorem lastIdxOf_basename (c : Char) (p : Str) :
    lastIdxOf c p =
      match lastIdxOf c (p.drop (basenameStart p)) with
      | some d => some (basenameStart p + d)
      | none => lastIdxOf c (p.take (basenameStart p)) := by
  conv_lhs => rw [← List.take_append_drop (basenameStart p) p]
  rw [lastIdxOf_append]
  cases h : lastIdxOf c (p.drop (basenameStart p)) with
  | none => simp
  | some d => simp [take_basenameStart_length, basenameStart_le_length]

/-- One open log destination: the path it was opened at and the
characters written to it since it was opened with mode `w` (so its
`tell()` value, the byte count since opening, is `content.length`). -/
structure Sink where
  path : Str
  content : Str
deriving DecidableEq, Repr

/-- The filesystem, as an association list from paths to file contents.
`FS.set` models opening a file for (truncating) write or recording a
closed file, `FS.get` models reading a file back. -/
abbrev FS := List (Str × Str)

def FS.set : FS → Str → Str → FS
  | [], p, c => [(p, c)]
  | (q, d) :: rest, p, c =>
    if q = p then (p, c) :: rest else (q, d) :: FS.set rest p c

def FS.get : FS → Str → Option Str
  | [], _ => none
  | (q, d) :: rest, p => if q = p then some d else FS.get rest p

/-- The mutable state of a `Tee` object (Tee.py lines 57-216), together
with the process-wide facts it manipulates: the bytes delivered to the
captured original stdout (`console`) and whether `sys.stdout` /
`sys.stderr` currently point at this object. -/
structure TeeState where
  PATHS : List Str
  append_lognum : Bool
  immediately_flush : Bool
  redirect_stderr : Bool
  max_logfile_size_bytes : Nat
  logfiles : List Sink
  logfile_numbers : List Nat
  console : Str
  stdout_is_tee : Bool
  stderr_is_tee : Bool
deriving DecidableEq, Repr

def STARTING_LOGNUMBER : Nat := 1

/-- The path `Tee.begin` opens for a destination: the numbered path at
index 1 when `append_lognum` is set, the bare base path otherwise. -/
def initPath (append_lognum : Bool) (p : Str) : Str :=
  if append_lognum then get_numbered_path p STARTING_LOGNUMBER else p

/-- `Tee.begin` (Tee.py lines 118-147) in the failure-free case: open a
sink per base path, then install the object as `sys.stdout` (and as
`sys.stderr` when `redirect_stderr`). -/
def beginState (PATHS : List Str) (append_lognum immediately_flush redirect_stderr : Bool)
    (max_logfile_size_bytes : Nat) : TeeState :=
  { PATHS := PATHS
    append_lognum := append_lognum
    immediately_flush := immediately_flush
    redirect_stderr := redirect_stderr
    max_logfile_size_bytes := max_logfile_size_bytes
    logfiles := PATHS.map fun p => ⟨initPath append_lognum p, []⟩
    logfile_numbers := PATHS.map fun _ =>
      if append_lognum then STARTING_LOGNUMBER else STARTING_LOGNUMBER - 1
    console := []
    stdout_is_tee := true
    stderr_is_tee := redirect_stderr }

/-- Effect of `Tee.begin` on the filesystem: each `open(path, "w")`
creates or truncates the file. -/
def beginFS (PATHS : List Str) (append_lognum : Bool) (fs : FS) : FS :=
  PATHS.foldl (fun acc p => FS.set acc (initPath append_lognum p) []) fs

/-- `Tee.write` (Tee.py lines 192-205) when no sink write raises: write
to the captured original stdout first, then to every log file in
destination order; `immediately_flush` only forces a flush and does not
change what was written. -/
def Tee.write (st : TeeState) (obj : Str) : TeeState :=
  { st with
    console := st.console ++ obj
    logfiles := st.logfiles.map fun f => { f with content := f.content ++ obj } }

/-- The sink loop of `Tee.write` when the write on sink `i` may raise
(`fails i = true` models `f.write(obj)` raising before writing
anything): sinks before the failing one keep their write, the failing
sink and all later ones receive nothing, and the exception carries the
partially updated sink list out of the call. -/
def writeSinks (fails : Nat → Bool) (obj : Str) : Nat → List Sink → Except (List Sink) (List Sink)
  | _, [] => Except.ok []
  | i, f :: rest =>
    if fails i then Except.error (f :: rest)
    else
      match writeSinks fails obj (i + 1) rest with
      | Except.ok rest2 => Except.ok ({ f with content := f.content ++ obj } :: rest2)
      | Except.error rest2 => Except.error ({ f with content := f.content ++ obj } :: rest2)

/-- `Tee.write` with a failure model: the console write happens first
and is never rolled back; a sink failure makes the whole call fail. -/
def Tee.writeE (fails : Nat → Bool) (st : TeeState) (obj : Str) : Except TeeState TeeState :=
  match writeSinks fails obj 0 st.logfiles with
  | Except.ok l => Except.ok { st with console := st.console ++ obj, logfiles := l }
  | Except.error l => Except.error { st with console := st.console ++ obj, logfiles := l }

/-- A `print(s)` executed while the Tee may be installed as
`sys.stdout`: when it is, the line goes through `Tee.write` and so
reaches the console and every open sink; otherwise it reaches only the
console. `print` appends the newline. -/
def printThrough (st : TeeState) (s : Str) : TeeState :=
  if st.stdout_is_tee then Tee.write st (s ++ ['\n'])
  else { st with console := st.console ++ s ++ ['\n'] }

/-- The announcement text `next_logfiles` prints after opening a new
log file (Tee.py line 168), without the newline `print` appends. -/
def announcement (newPath : Str) : Str :=
  ("Opened new log file at: ").data ++ newPath

/-- The announcement as it lands in the streams, newline included. -/
def announcedLine (newPath : Str) : Str :=
  announcement newPath ++ ['\n']

/-- One iteration of the loop in `Tee.next_logfiles` (Tee.py lines
149-168), at index `i` of the live sink list: compare `f.tell()` with
the threshold; on rotation close the file, increment the stored log
number, open the numbered path derived from the original base path, and
`print` the announcement through whatever `sys.stdout` currently is. -/
def rotateStep (acc : TeeState × FS) (i : Nat) : TeeState × FS :=
  match acc.1.logfiles.get? i, acc.1.logfile_numbers.get? i, acc.1.PATHS.get? i with
  | some f, some n, some basePath =>
    if acc.1.max_logfile_size_bytes ≤ f.content.length then
      let fsClosed := FS.set acc.2 f.path f.content
      let newPath := get_numbered_path basePath (n + 1)
      let st1 : TeeState :=
        { acc.1 with
          logfile_numbers := acc.1.logfile_numbers.set i (n + 1)
          logfiles := acc.1.logfiles.set i ⟨newPath, []⟩ }
      (printThrough st1 (announcement newPath), FS.set fsClosed newPath [])
    else acc
  | _, _, _ => acc

/-- `Tee.next_logfiles`: the rotation check over every sink, in order.
The loop mutates the sink list in place, so each iteration sees the
effects (including announcement bytes) of the earlier ones. -/
def next_logfiles (st : TeeState) (fs : FS) : TeeState × FS :=
  (List.range st.logfiles.length).foldl rotateStep (st, fs)

/-- `Tee.get_logfile_names` (Tee.py lines 170-175). -/
def get_logfile_names (st : TeeState) : List Str :=
  st.logfiles.map fun f => f.path

/-- `Tee.end` (Tee.py lines 177-190): close every sink (recording its
content in the filesystem) and restore the original streams. -/
def endSession (st : TeeState) (fs : FS) : TeeState × FS :=
  ({ st with
     stdout_is_tee := false
     stderr_is_tee := if st.redirect_stderr then false else st.stderr_is_tee },
   st.logfiles.foldl (fun acc f => FS.set acc f.path f.content) fs)

/-- The operations a caller can perform during a session. -/
inductive Op where
  | write (s : Str)
  | rotate
deriving DecidableEq, Repr

def step (acc : TeeState × FS) (op : Op) : TeeState × FS :=
  match op with
  | Op.write s => (Tee.write acc.1 s, acc.2)
  | Op.rotate => next_logfiles acc.1 acc.2

/-- A session: a sequence of failure-free writes and explicit rotation
checks, starting from some state. -/
def run (acc : TeeState × FS) (ops : List Op) : TeeState × FS :=
  ops.foldl step acc

theorem splitext_eq_of_dot (p : Str) (d : Nat)
    (hd : lastIdxOf '.' (p.drop (basenameStart p)) = some d)
    (hany : ((p.drop (basenameStart p)).take d).any (fun ch => ch ≠ '.') = true) :
    splitext p = (p.take (basenameStart p + d), p.drop (basenameStart p + d)) := by
  have hp : lastIdxOf '.' p = some (basenameStart p + d) := by
    rw [lastIdxOf_basename '.' p, hd]
  cases hsep : lastIdxOf '/' p with
  | none =>
    have hb : basenameStart p = 0 := by unfold basenameStart; rw [hsep]
    rw [hb] at hp hany ⊢
    simp only [Nat.zero_add, List.drop_zero] at hp hany ⊢
    have hlt : (-1 : Int) < (d : Int) := by omega
    simp only [splitext, hp, hsep, idxVal, Nat.sub_zero, List.drop_zero]
    rw [if_pos hlt, if_pos hany]
  | some s =>
    have hb : basenameStart p = s + 1 := by unfold basenameStart; rw [hsep]
    rw [hb] at hp hany ⊢
    have hlt : ((s : Nat) : Int) < ((s + 1 + d : Nat) : Int) := by omega
    have harith : s + 1 + d - (s + 1) = d := by omega
    simp only [splitext, hp, hsep, idxVal, harith]
    rw [if_pos hlt, if_pos hany]

theorem splitext_eq_of_no_dot (p : Str)
    (hd : lastIdxOf '.' (p.drop (basenameStart p)) = none) :
    splitext p = (p, []) := by
  have hp : lastIdxOf '.' p = lastIdxOf '.' (p.take (basenameStart p)) := by
    rw [lastIdxOf_basename '.' p, hd]
  cases hq : lastIdxOf '.' (p.take (basenameStart p)) with
  | none =>
    rw [hq] at hp
    simp [splitext, hp]
  | some j =>
    rw [hq] at hp
    have hj : j < basenameStart p := by
      have := lastIdxOf_lt_length '.' (p.take (basenameStart p)) j hq
      rw [take_basenameStart_length] at this
      exact this
    cases hsep : lastIdxOf '/' p with
    | none =>
      exfalso
      have hb : basenameStart p = 0 := by unfold basenameStart; rw [hsep]
      omega
    | some s =>
      have hb : basenameStart p = s + 1 := by unfold basenameStart; rw [hsep]
      have hnlt : ¬ (idxVal (some s) < (j : Int)) := by
        simp only [idxVal]
        omega
      simp [splitext, hp, hsep, hnlt]

theorem splitext_eq_of_hidden (p : Str) (d : Nat)
    (hd : lastIdxOf '.' (p.drop (basenameStart p)) = some d)
    (hany : ((p.drop (basenameStart p)).take d).any (fun ch => ch ≠ '.') = false) :
    splitext p = (p, []) := by
  have hp : lastIdxOf '.' p = some (basenameStart p + d) := by
    rw [lastIdxOf_basename '.' p, hd]
  cases hsep : lastIdxOf '/' p with
  | none =>
    have hb : basenameStart p = 0 := by unfold basenameStart; rw [hsep]
    rw [hb] at hp hany
    simp only [Nat.zero_add, List.drop_zero] at hp hany
    have hlt : (-1 : Int) < (d : Int) := by omega
    have hnot : ¬ ((p.take d).any (fun ch => ch ≠ '.') = true) := by
      simp only [Bool.not_eq_true]
      exact hany
    simp only [splitext, hp, hsep, idxVal, Nat.sub_zero, List.drop_zero]
    rw [if_pos hlt, if_neg hnot]
  | some s =>
    have hb : basenameStart p = s + 1 := by unfold basenameStart; rw [hsep]
    rw [hb] at hp hany
    have hlt : ((s : Nat) : Int) < ((s + 1 + d : Nat) : Int) := by omega
    have harith : s + 1 + d - (s + 1) = d := by omega
    have hnot : ¬ (((p.drop (s + 1)).take d).any (fun ch => ch ≠ '.') = true) := by
      simp only [Bool.not_eq_true]
      exact hany
    simp only [splitext, hp, hsep, idxVal, harith]
    rw [if_pos hlt, if_neg hnot]

/-- C5: counterexample. The claim says `numbered_path(base, index)` always
matches splitting at the last dot occurring in the final path segment.
It does not: `os.path.splitext` refuses to treat the leading dots of a
hidden-file name as an extension separator, so for the base path
`.bashrc` and index `1` the code produces `.bashrc_1`, while splitting
at the last dot of the final segment would produce `_1.bashrc`. -/
theorem C5_numbered_path_counterexample :
    get_numbered_path (".bashrc").data 1 ≠ numbered_path_spec (".bashrc").data 1 ∧
    get_numbered_path (".bashrc").data 1 = (".bashrc_1").data ∧
    numbered_path_spec (".bashrc").data 1 = ("_1.bashrc").data := by
  refine ⟨by decide, by decide, by decide⟩

/-- C5 (amended): `numbered_path(base, index)` is a pure function of its
arguments that inserts the underscore-number at the extension boundary
computed by `os.path.splitext`: when the final path segment holds a last
dot preceded (within the segment) by at least one non-dot character, the
result is exactly the split at that dot — never at dots in parent
directories; when the final segment has no dot, or when every character
of the segment up to its last dot is a dot (the hidden-file rule, the
one departure from the claim), the suffix is appended at the end of the
whole path, i.e. at an empty extension boundary. -/
theorem C5_numbered_path (p : Str) (n : Nat) :
    (∀ d, lastIdxOf '.' (p.drop (basenameStart p)) = some d →
      (((p.drop (basenameStart p)).take d).any (fun ch => ch ≠ '.') = true →
        get_numbered_path p n = numbered_path_spec p n) ∧
      (((p.drop (basenameStart p)).take d).any (fun ch => ch ≠ '.') = false →
        get_numbered_path p n = p ++ '_' :: natChars n)) ∧
    (lastIdxOf '.' (p.drop (basenameStart p)) = none →
      get_numbered_path p n = p ++ '_' :: natChars n) := by
  constructor
  · intro d hd
    constructor
    · intro hany
      rw [get_numbered_path, splitext_eq_of_dot p d hd hany]
      rw [numbered_path_spec, hd]
    · intro hany
      rw [get_numbered_path, splitext_eq_of_hidden p d hd hany]
      simp
  · intro hd
    rw [get_numbered_path, splitext_eq_of_no_dot p hd]
    simp

/-- C5: witness. On the base path `dir.d/out.log` with index `7`, the
amended theorem applies: the last dot of the final segment `out.log` is
at offset `3`, preceded by non-dot characters, and the numbered path is
the claimed split `dir.d/out_7.log` — the dot inside the parent
directory `dir.d` is ignored. -/
theorem C5_numbered_path_witness :
    get_numbered_path ("dir.d/out.log").data 7 = numbered_path_spec ("dir.d/out.log").data 7 ∧
    get_numbered_path ("dir.d/out.log").data 7 = ("dir.d/out_7.log").data := by
  constructor
  · exact ((C5_numbered_path ("dir.d/out.log").data 7).1 3 (by decide)).1 (by decide)
  · decide

/-- An active session with a single destination `p`, whose sink is
currently open at `fpath` with `cont` written since opening and stored
log number `n`. -/
def singleSinkState (p fpath cont console : Str) (n maxB : Nat)
    (app imm red sb : Bool) : TeeState :=
  { PATHS := [p]
    append_lognum := app
    immediately_flush := imm
    redirect_stderr := red
    max_logfile_size_bytes := maxB
    logfiles := [⟨fpath, cont⟩]
    logfile_numbers := [n]
    console := console
    stdout_is_tee := true
    stderr_is_tee := sb }

/-- An active two-destination session in which the first sink holds 12
bytes (over the 10-byte threshold) and the second holds 9 bytes (under
it). -/
def cascadeState : TeeState :=
  { PATHS := [("a.log").data, ("b.log").data]
    append_lognum := true
    immediately_flush := false
    redirect_stderr := true
    max_logfile_size_bytes := 10
    logfiles := [⟨("a_1.log").data, ("0123456789ab").data⟩,
                 ⟨("b_1.log").data, ("012345678").data⟩]
    logfile_numbers := [1, 1]
    console := []
    stdout_is_tee := true
    stderr_is_tee := true }

/-- C1: counterexample. The claim says a `next_logfiles()` call closes
exactly the sinks whose byte count is at or over the threshold and
leaves below-threshold sinks untouched. In `cascadeState` the second
sink holds 9 bytes, below the 10-byte threshold, at the moment of the
call — yet the call rotates it too: rotating the first sink prints a
32-byte announcement through the tee into every open sink, which pushes
the second sink to 41 bytes before its own check, so it is closed and
reopened at `b_2.log` as well (both stored log numbers end at 2). -/
theorem C1_rotation_counterexample :
    cascadeState.logfiles.get? 1 = some ⟨("b_1.log").data, ("012345678").data⟩ ∧
    ("012345678").data.length < cascadeState.max_logfile_size_bytes ∧
    ((next_logfiles cascadeState []).1.logfiles.get? 1).map Sink.path =
      some (("b_2.log").data) ∧
    (next_logfiles cascadeState []).1.logfile_numbers = [2, 2] := by
  refine ⟨by decide, by decide, by decide, by decide⟩

/-- C1 (amended): for a single-destination session the claim holds as
stated — `next_logfiles` closes the sink exactly when its byte count
since opening has reached `max_logfile_size_bytes`, records the closed
file, reopens at the numbered path whose index is exactly one greater,
and `logfile_names()` then returns that new path; a sink below the
threshold is untouched, and `write()` never rotates (it changes no sink
path and no log number). With several destinations the byte count that
decides each sink is the one at that sink's place in the sequential
scan: announcement bytes printed for earlier rotations in the same call
land in the later sinks first (see the counterexample). -/
theorem C1_rotation (p fpath cont console : Str) (n maxB : Nat) (app imm red sb : Bool)
    (fs : FS) :
    (maxB ≤ cont.length →
      next_logfiles (singleSinkState p fpath cont console n maxB app imm red sb) fs =
        ({ singleSinkState p fpath cont console n maxB app imm red sb with
           logfiles := [⟨get_numbered_path p (n + 1),
                         announcedLine (get_numbered_path p (n + 1))⟩]
           logfile_numbers := [n + 1]
           console := console ++ announcedLine (get_numbered_path p (n + 1)) },
         FS.set (FS.set fs fpath cont) (get_numbered_path p (n + 1)) [])) ∧
    (cont.length < maxB →
      next_logfiles (singleSinkState p fpath cont console n maxB app imm red sb) fs =
        (singleSinkState p fpath cont console n maxB app imm red sb, fs)) ∧
    (maxB ≤ cont.length →
      get_logfile_names
          (next_logfiles (singleSinkState p fpath cont console n maxB app imm red sb) fs).1 =
        [get_numbered_path p (n + 1)]) ∧
    (∀ (st : TeeState) (obj : Str),
      (Tee.write st obj).logfile_numbers = st.logfile_numbers ∧
      (Tee.write st obj).logfiles.map Sink.path = st.logfiles.map Sink.path) := by
  have h1 : maxB ≤ cont.length →
      next_logfiles (singleSinkState p fpath cont console n maxB app imm red sb) fs =
        ({ singleSinkState p fpath cont console n maxB app imm red sb with
           logfiles := [⟨get_numbered_path p (n + 1),
                         announcedLine (get_numbered_path p (n + 1))⟩]
           logfile_numbers := [n + 1]
           console := console ++ announcedLine (get_numbered_path p (n + 1)) },
         FS.set (FS.set fs fpath cont) (get_numbered_path p (n + 1)) []) := by
    intro h
    simp [next_logfiles, singleSinkState, rotateStep, printThrough, Tee.write,
      announcedLine, announcement, List.range_succ, List.range_zero, h]
  refine ⟨h1, ?_, ?_, ?_⟩
  · intro h
    have hnot : ¬ (maxB ≤ cont.length) := by omega
    simp [next_logfiles, singleSinkState, rotateStep, List.range_succ, List.range_zero, hnot]
  · intro h
    rw [h1 h]
    simp [get_logfile_names]
  · intro st obj
    constructor
    · rfl
    · simp [Tee.write]

/-- C1: witness. The scenario of the claim itself: numbering on, a
10-byte threshold, 12 bytes written to the destination `out.log`, sink
currently open at `out_1.log` with log number 1. The rotation call
closes `out_1.log` — the filesystem afterwards holds it with exactly
the 12 written bytes — and `logfile_names()` returns `out_2.log`. -/
theorem C1_rotation_witness :
    (10 : Nat) ≤ ("hello world!").data.length ∧
    get_logfile_names
        (next_logfiles
          (singleSinkState (("out.log").data) (("out_1.log").data)
            (("hello world!").data) [] 1 10 true false true true) []).1 =
      [("out_2.log").data] ∧
    FS.get
        (next_logfiles
          (singleSinkState (("out.log").data) (("out_1.log").data)
            (("hello world!").data) [] 1 10 true false true true) []).2
        (("out_1.log").data) =
      some (("hello world!").data) := by
  refine ⟨by decide, ?_, ?_⟩
  · have h := (C1_rotation (("out.log").data) (("out_1.log").data)
      (("hello world!").data) [] 1 10 true false true true []).2.2.1 (by decide)
    rw [h]
    decide
  · have h := (C1_rotation (("out.log").data) (("out_1.log").data)
      (("hello world!").data) [] 1 10 true false true true []).1 (by decide)
    rw [h]
    decide

/-- The file name a sink with stored log number `n` is open at, for
numbering mode `app`: with numbering on it is always the numbered path;
with numbering off the stored number 0 means the bare base path and any
later number means the numbered path. -/
def pathOfNum (app : Bool) (p : Str) (n : Nat) : Str :=
  if app then get_numbered_path p n
  else if n = 0 then p else get_numbered_path p n

/-- Session invariant tying every open sink to its destination: the
configuration is unchanged, the three per-destination lists stay
aligned, and each sink is open at the file name its stored log number
dictates (with numbering on, that number is at least 1). -/
def NumberingInv (app : Bool) (PATHS : List Str) (st : TeeState) : Prop :=
  st.append_lognum = app ∧
  st.PATHS = PATHS ∧
  st.logfiles.length = PATHS.length ∧
  st.logfile_numbers.length = PATHS.length ∧
  ∀ i f n p, st.logfiles.get? i = some f → st.logfile_numbers.get? i = some n →
    PATHS.get? i = some p →
    f.path = pathOfNum app p n ∧ (app = true → 1 ≤ n)

theorem numberingInv_begin (PATHS : List Str) (app imm red : Bool) (maxB : Nat) :
    NumberingInv app PATHS (beginState PATHS app imm red maxB) := by
  refine ⟨rfl, rfl, by simp [beginState], by simp [beginState], ?_⟩
  intro i f n p hf hn hp
  rw [beginState] at hf hn
  simp only [List.get?_map, hp, Option.map_some'] at hf hn
  injection hf with hf
  injection hn with hn
  subst hf
  subst hn
  cases app <;> simp [initPath, pathOfNum, STARTING_LOGNUMBER]

theorem numberingInv_write (app : Bool) (PATHS : List Str) (st : TeeState) (obj : Str)
    (h : NumberingInv app PATHS st) : NumberingInv app PATHS (Tee.write st obj) := by
  obtain ⟨h1, h2, h3, h4, h5⟩ := h
  refine ⟨h1, h2, by simpa [Tee.write] using h3, h4, ?_⟩
  intro i f n p hf hn hp
  rw [Tee.write] at hf
  simp only [List.get?_map] at hf
  cases hg : st.logfiles.get? i with
  | none => rw [hg] at hf; simp at hf
  | some g =>
    rw [hg] at hf
    simp only [Option.map_some'] at hf
    injection hf with hf
    have hgp := h5 i g n p hg hn hp
    subst hf
    exact ⟨hgp.1, hgp.2⟩

theorem numberingInv_printThrough (app : Bool) (PATHS : List Str) (st : TeeState) (s : Str)
    (h : NumberingInv app PATHS st) : NumberingInv app PATHS (printThrough st s) := by
  rw [printThrough]
  split
  · exact numberingInv_write app PATHS st (s ++ ['\n']) h
  · obtain ⟨h1, h2, h3, h4, h5⟩ := h
    exact ⟨h1, h2, h3, h4, h5⟩

theorem get?_some_lt {α : Type} (l : List α) (i : Nat) (a : α) (h : l.get? i = some a) :
    i < l.length := by
  by_contra hc
  rw [List.get?_eq_none.mpr (by omega)] at h
  exact Option.noConfusion h

theorem numberingInv_rotateStep (app : Bool) (PATHS : List Str) (acc : TeeState × FS)
    (i : Nat) (h : NumberingInv app PATHS acc.1) :
    NumberingInv app PATHS (rotateStep acc i).1 := by
  rcases hf : acc.1.logfiles.get? i with _ | f
  · simp only [rotateStep, hf]; exact h
  rcases hn : acc.1.logfile_numbers.get? i with _ | n
  · simp only [rotateStep, hf, hn]; exact h
  rcases hp : acc.1.PATHS.get? i with _ | basePath
  · simp only [rotateStep, hf, hn, hp]; exact h
  by_cases hsize : acc.1.max_logfile_size_bytes ≤ f.content.length
  · obtain ⟨h1, h2, h3, h4, h5⟩ := h
    have hi : i < acc.1.logfiles.length := get?_some_lt _ _ _ hf
    simp only [rotateStep, hf, hn, hp, if_pos hsize]
    apply numberingInv_printThrough
    refine ⟨h1, h2, by simpa using h3, by simpa using h4, ?_⟩
    intro j g m q hg hm hq
    by_cases hij : j = i
    · subst hij
      rw [List.get?_set_eq_of_lt _ (by omega)] at hg
      rw [List.get?_set_eq_of_lt _ (by omega)] at hm
      injection hg with hg
      injection hm with hm
      subst hg
      subst hm
      have hbq : basePath = q := by
        rw [h2] at hp
        rw [hp] at hq
        injection hq
      subst hbq
      constructor
      · cases app with
        | true => simp [pathOfNum]
        | false => simp [pathOfNum]
      · intro
        omega
    · rw [List.get?_set_ne _ _ (fun hh => hij hh.symm)] at hg
      rw [List.get?_set_ne _ _ (fun hh => hij hh.symm)] at hm
      exact h5 j g m q hg hm hq
  · simp only [rotateStep, hf, hn, hp, if_neg hsize]
    exact h

theorem numberingInv_foldlRotate (app : Bool) (PATHS : List Str) (l : List Nat)
    (acc : TeeState × FS) (h : NumberingInv app PATHS acc.1) :
    NumberingInv app PATHS (l.foldl rotateStep acc).1 := by
  induction l generalizing acc with
  | nil => exact h
  | cons a as ih =>
    exact ih (rotateStep acc a) (numberingInv_rotateStep app PATHS acc a h)

theorem numberingInv_run (app : Bool) (PATHS : List Str) (ops : List Op)
    (acc : TeeState × FS) (h : NumberingInv app PATHS acc.1) :
    NumberingInv app PATHS (run acc ops).1 := by
  induction ops generalizing acc with
  | nil => exact h
  | cons op rest ih =>
    apply ih
    cases op with
    | write s => exact numberingInv_write app PATHS acc.1 s h
    | rotate => exact numberingInv_foldlRotate app PATHS _ _ h

theorem printThrough_numbers (st : TeeState) (s : Str) :
    (printThrough st s).logfile_numbers = st.logfile_numbers := by
  rw [printThrough]
  split <;> rfl

theorem printThrough_paths (st : TeeState) (s : Str) :
    (printThrough st s).logfiles.map Sink.path = st.logfiles.map Sink.path := by
  rw [printThrough]
  split
  · simp [Tee.write]
  · rfl

/-- C7: for every destination, the session's file-name sequence follows
the numbering mode. First conjunct: `begin` opens destination `i` at
the index-1 numbered path when numbering is on and at the bare base
path otherwise, with the stored log number 1 resp. 0. Second conjunct:
after any failure-free session (any sequence of writes and rotation
checks), every open sink is at the path its stored log number dictates
— numbered with numbering on (number at least 1), bare exactly at
number 0 otherwise. Third conjunct: a rotation of sink `i` increments
its stored number by exactly one and reopens it at the numbered path of
that incremented index, so successive rotations produce indices
2, 3, ... with numbering on and 1, 2, ... with numbering off. -/
theorem C7_numbering_modes (PATHS : List Str) (app imm red : Bool) (maxB : Nat)
    (ops : List Op) (fs : FS) :
    (∀ i p, PATHS.get? i = some p →
      (beginState PATHS app imm red maxB).logfiles.get? i =
        some ⟨if app then get_numbered_path p 1 else p, []⟩ ∧
      (beginState PATHS app imm red maxB).logfile_numbers.get? i =
        some (if app then 1 else 0)) ∧
    NumberingInv app PATHS (run (beginState PATHS app imm red maxB, fs) ops).1 ∧
    (∀ (st : TeeState) (fs2 : FS) (i : Nat) (f : Sink) (n : Nat) (p : Str),
      st.logfiles.get? i = some f → st.logfile_numbers.get? i = some n →
      st.PATHS.get? i = some p →
      st.max_logfile_size_bytes ≤ f.content.length →
      (rotateStep (st, fs2) i).1.logfile_numbers.get? i = some (n + 1) ∧
      ((rotateStep (st, fs2) i).1.logfiles.get? i).map Sink.path =
        some (get_numbered_path p (n + 1))) := by
  refine ⟨?_, numberingInv_run app PATHS ops _ (numberingInv_begin PATHS app imm red maxB), ?_⟩
  · intro i p hp
    constructor
    · rw [beginState]
      simp only [List.get?_map, hp, Option.map_some']
      cases app <;> simp [initPath, STARTING_LOGNUMBER]
    · rw [beginState]
      simp only [List.get?_map, hp, Option.map_some']
      cases app <;> simp [STARTING_LOGNUMBER]
  · intro st fs2 i f n p hf hn hp hsize
    have hi : i < st.logfiles.length := get?_some_lt _ _ _ hf
    have hin : i < st.logfile_numbers.length := get?_some_lt _ _ _ hn
    simp only [rotateStep, hf, hn, hp, if_pos hsize]
    constructor
    · rw [printThrough_numbers]
      simp only
      rw [List.get?_set_eq_of_lt _ (by omega)]
    · have hchain :
          ∀ (st1 : TeeState) (s : Str),
            ((printThrough st1 s).logfiles.get? i).map Sink.path =
              (st1.logfiles.get? i).map Sink.path := by
        intro st1 s
        rw [← List.get?_map, printThrough_paths, List.get?_map]
      rw [hchain]
      simp only
      rw [List.get?_set_eq_of_lt _ (by omega)]
      rfl

/-- C7: witness. A one-destination configuration with numbering on
opens its first file at the index-1 numbered path `o_1.log`. -/
theorem C7_numbering_modes_witness :
    (beginState [("o.log").data] true false true 100).logfiles.get? 0 =
      some ⟨("o_1.log").data, []⟩ := by
  have h := (C7_numbering_modes [("o.log").data] true false true 100 [] []).1 0
    (("o.log").data) rfl
  rw [h.1]
  decide

theorem run_writes (payloads : List Str) (st : TeeState) (fs : FS) :
    run (st, fs) (payloads.map Op.write) = (payloads.foldl Tee.write st, fs) := by
  induction payloads generalizing st with
  | nil => rfl
  | cons a rest ih =>
    show run (Tee.write st a, fs) (rest.map Op.write) = _
    rw [ih (Tee.write st a)]
    rfl

theorem foldl_write_console (payloads : List Str) (st : TeeState) :
    (payloads.foldl Tee.write st).console = st.console ++ payloads.join := by
  induction payloads generalizing st with
  | nil => simp
  | cons a rest ih =>
    rw [List.foldl_cons, ih (Tee.write st a)]
    simp [Tee.write, List.append_assoc]

theorem foldl_write_logfiles (payloads : List Str) (st : TeeState) :
    (payloads.foldl Tee.write st).logfiles =
      st.logfiles.map fun f => ⟨f.path, f.content ++ payloads.join⟩ := by
  induction payloads generalizing st with
  | nil =>
    have h : (fun f : Sink => (⟨f.path, f.content ++ List.join []⟩ : Sink)) = fun f => f := by
      funext f
      simp
    rw [h]
    simp
  | cons a rest ih =>
    rw [List.foldl_cons, ih (Tee.write st a)]
    show (st.logfiles.map fun f => { f with content := f.content ++ a }).map _ = _
    rw [List.map_map]
    have h : ((fun f : Sink => (⟨f.path, f.content ++ rest.join⟩ : Sink)) ∘
        fun f : Sink => { f with content := f.content ++ a }) =
        fun f : Sink => (⟨f.path, f.content ++ (a :: rest).join⟩ : Sink) := by
      funext f
      simp [List.append_assoc]
    rw [h]

theorem FS.get_set_self (fs : FS) (p c : Str) : FS.get (FS.set fs p c) p = some c := by
  induction fs with
  | nil => simp [FS.set, FS.get]
  | cons e rest ih =>
    by_cases h : e.1 = p
    · simp [FS.set, FS.get, h]
    · simp [FS.set, FS.get, h, ih]

theorem FS.get_set_ne (fs : FS) (p c q : Str) (h : q ≠ p) :
    FS.get (FS.set fs p c) q = FS.get fs q := by
  have hne : ¬ (p = q) := fun hh => h hh.symm
  induction fs with
  | nil => simp [FS.set, FS.get, hne]
  | cons e rest ih =>
    by_cases he : e.1 = p
    · subst he
      simp [FS.set, FS.get, hne]
    · simp only [FS.set, if_neg he]
      by_cases hq : e.1 = q
      · simp [FS.get, hq]
      · simp [FS.get, hq, ih]

/-- The filesystem produced by closing a list of sinks in order. -/
def closeAll (sinks : List Sink) (fs : FS) : FS :=
  sinks.foldl (fun acc f => FS.set acc f.path f.content) fs

theorem closeAll_untouched (sinks : List Sink) (fs : FS) (p : Str)
    (h : p ∉ sinks.map Sink.path) :
    FS.get (closeAll sinks fs) p = FS.get fs p := by
  induction sinks generalizing fs with
  | nil => rfl
  | cons g rest ih =>
    simp only [List.map_cons, List.mem_cons, not_or] at h
    show FS.get (closeAll rest (FS.set fs g.path g.content)) p = _
    rw [ih _ h.2, FS.get_set_ne _ _ _ _ h.1]

theorem closeAll_get (sinks : List Sink) (fs : FS)
    (h : (sinks.map Sink.path).Nodup) (f : Sink) (hf : f ∈ sinks) :
    FS.get (closeAll sinks fs) f.path = some f.content := by
  induction sinks generalizing fs with
  | nil => cases hf
  | cons g rest ih =>
    rw [List.map_cons, List.nodup_cons] at h
    rcases List.mem_cons.mp hf with rfl | hmem
    · show FS.get (closeAll rest (FS.set fs f.path f.content)) f.path = _
      rw [closeAll_untouched rest _ f.path h.1, FS.get_set_self]
    · exact ih (FS.set fs g.path g.content) h.2 hmem

/-- C4: in a failure-free session with no rotation check, the console
receives exactly the concatenation of the write payloads in call order;
every open sink holds exactly that same concatenation; and when the
open file names are pairwise distinct, each log file read back from the
filesystem after `end()` (which flushes and closes every sink) equals
that concatenation as well. -/
theorem C4_write_concat (PATHS : List Str) (app imm red : Bool) (maxB : Nat)
    (payloads : List Str) (fs : FS) :
    (run (beginState PATHS app imm red maxB, fs) (payloads.map Op.write)).1.console =
      payloads.join ∧
    (∀ i f,
      (run (beginState PATHS app imm red maxB, fs) (payloads.map Op.write)).1.logfiles.get? i =
        some f → f.content = payloads.join) ∧
    ((((run (beginState PATHS app imm red maxB, fs)
          (payloads.map Op.write)).1.logfiles.map Sink.path).Nodup) →
      ∀ i f,
        (run (beginState PATHS app imm red maxB, fs)
            (payloads.map Op.write)).1.logfiles.get? i = some f →
        FS.get
            (endSession (run (beginState PATHS app imm red maxB, fs) (payloads.map Op.write)).1
              (run (beginState PATHS app imm red maxB, fs) (payloads.map Op.write)).2).2
            f.path =
          some payloads.join) := by
  rw [run_writes]
  refine ⟨?_, ?_, ?_⟩
  · rw [foldl_write_console]
    rfl
  · intro i f hf
    rw [foldl_write_logfiles] at hf
    simp only [beginState, List.map_map, List.get?_map] at hf
    cases hp : PATHS.get? i with
    | none => rw [hp] at hf; simp at hf
    | some p =>
      rw [hp] at hf
      simp only [Option.map_some', Function.comp] at hf
      injection hf with hf
      rw [← hf]
      simp
  · intro hnodup i f hf
    have hmem : f ∈ (payloads.foldl Tee.write (beginState PATHS app imm red maxB)).logfiles :=
      List.get?_mem hf
    have hcontent : f.content = payloads.join := by
      rw [foldl_write_logfiles] at hf
      simp only [beginState, List.map_map, List.get?_map] at hf
      cases hp : PATHS.get? i with
      | none => rw [hp] at hf; simp at hf
      | some p =>
        rw [hp] at hf
        simp only [Option.map_some', Function.comp] at hf
        injection hf with hf
        rw [← hf]
        simp
    have h := closeAll_get _ fs hnodup f hmem
    rw [hcontent] at h
    exact h

/-- C4: witness. One destination `w.log`, numbering on, payloads `ab`
then `c`: the console ends holding `abc` and the file `w_1.log` read
back after `end()` holds `abc` too. -/
theorem C4_write_concat_witness :
    (run (beginState [("w.log").data] true false true 100, [])
        ([("ab").data, ("c").data].map Op.write)).1.console = ("abc").data ∧
    FS.get
        (endSession
          (run (beginState [("w.log").data] true false true 100, [])
            ([("ab").data, ("c").data].map Op.write)).1
          (run (beginState [("w.log").data] true false true 100, [])
            ([("ab").data, ("c").data].map Op.write)).2).2
        (("w_1.log").data) =
      some (("abc").data) := by
  have h := C4_write_concat [("w.log").data] true false true 100
    [("ab").data, ("c").data] []
  constructor
  · rw [h.1]
    decide
  · exact h.2.2 (by decide) 0 ⟨("w_1.log").data, ("abc").data⟩ (by decide)

theorem writeSinks_ok (fails : Nat → Bool) (obj : Str) (sinks : List Sink) (i : Nat)
    (h : ∀ k, k < sinks.length → fails (i + k) = false) :
    writeSinks fails obj i sinks =
      Except.ok (sinks.map fun f => ⟨f.path, f.content ++ obj⟩) := by
  induction sinks generalizing i with
  | nil => rfl
  | cons g rest ih =>
    have h0 : fails i = false := by
      have := h 0 (by simp)
      simpa using this
    have hrest : ∀ k, k < rest.length → fails (i + 1 + k) = false := by
      intro k hk
      have hx := h (k + 1) (by simp only [List.length_cons]; omega)
      have he : i + (k + 1) = i + 1 + k := by omega
      rw [he] at hx
      exact hx
    simp only [writeSinks]
    rw [if_neg (by simp [h0]), ih (i + 1) hrest]
    rfl

theorem writeSinks_error (fails : Nat → Bool) (obj : Str) (sinks : List Sink) (i j : Nat)
    (hj : ∀ k, k < j → fails (i + k) = false) (hjf : fails (i + j) = true)
    (hlen : j < sinks.length) :
    writeSinks fails obj i sinks =
      Except.error
        ((sinks.take j).map (fun f => ⟨f.path, f.content ++ obj⟩) ++ sinks.drop j) := by
  induction sinks generalizing i j with
  | nil => simp at hlen
  | cons g rest ih =>
    cases j with
    | zero =>
      have h0 : fails i = true := by simpa using hjf
      simp only [writeSinks]
      rw [if_pos h0]
      simp
    | succ m =>
      have h0 : fails i = false := by
        have := hj 0 (by omega)
        simpa using this
      have hjf2 : fails (i + 1 + m) = true := by
        have he : i + (m + 1) = i + 1 + m := by omega
        rw [← he]
        exact hjf
      have hj2 : ∀ k, k < m → fails (i + 1 + k) = false := by
        intro k hk
        have hx := hj (k + 1) (by omega)
        have he : i + (k + 1) = i + 1 + k := by omega
        rw [he] at hx
        exact hx
      have hlen2 : m < rest.length := by
        simp only [List.length_cons] at hlen
        omega
      simp only [writeSinks]
      rw [if_neg (by simp [h0]), ih (i + 1) m hj2 hjf2 hlen2]
      simp

/-- C6: `write(data)` behaves as a console-first fan-out with fail-fast
error propagation. First conjunct: when no sink write raises, the call
succeeds and equals the plain fan-out `Tee.write` (console first, then
every sink in destination order). Second conjunct: when sink `j` is the
first whose write raises, the whole call fails with that single error;
in the failed state the console write has happened and is not rolled
back, the sinks before `j` have received the payload, and sink `j` and
every later sink have received nothing. -/
theorem C6_write_fail_fast (st : TeeState) (obj : Str) (fails : Nat → Bool) (j : Nat) :
    ((∀ k, k < st.logfiles.length → fails k = false) →
      Tee.writeE fails st obj = Except.ok (Tee.write st obj)) ∧
    ((∀ k, k < j → fails k = false) → fails j = true → j < st.logfiles.length →
      Tee.writeE fails st obj =
        Except.error
          { st with
            console := st.console ++ obj
            logfiles :=
              (st.logfiles.take j).map (fun f => ⟨f.path, f.content ++ obj⟩) ++
                st.logfiles.drop j }) := by
  constructor
  · intro h
    have hz : ∀ k, k < st.logfiles.length → fails (0 + k) = false := by
      intro k hk
      rw [Nat.zero_add]
      exact h k hk
    rw [Tee.writeE, writeSinks_ok fails obj st.logfiles 0 hz]
    rfl
  · intro hj hjf hlen
    have hz : ∀ k, k < j → fails (0 + k) = false := by
      intro k hk
      rw [Nat.zero_add]
      exact hj k hk
    have hzf : fails (0 + j) = true := by
      rw [Nat.zero_add]
      exact hjf
    rw [Tee.writeE, writeSinks_error fails obj st.logfiles 0 j hz hzf hlen]

/-- An active session holding three sinks with one byte each. -/
def threeSinkState : TeeState :=
  { PATHS := [("p.log").data, ("q.log").data, ("r.log").data]
    append_lognum := true
    immediately_flush := false
    redirect_stderr := true
    max_logfile_size_bytes := 100
    logfiles := [⟨("p_1.log").data, ("A").data⟩, ⟨("q_1.log").data, ("B").data⟩,
                 ⟨("r_1.log").data, ("C").data⟩]
    logfile_numbers := [1, 1, 1]
    console := []
    stdout_is_tee := true
    stderr_is_tee := true }

/-- C6: witness. With three sinks and a write that raises on the second
sink (index 1), the call fails; the console and the first sink hold the
payload, the second and third sinks are untouched. -/
theorem C6_write_fail_fast_witness :
    Tee.writeE (fun k => decide (k = 1)) threeSinkState (("xy").data) =
      Except.error
        { threeSinkState with
          console := ("xy").data
          logfiles := [⟨("p_1.log").data, ("Axy").data⟩, ⟨("q_1.log").data, ("B").data⟩,
                       ⟨("r_1.log").data, ("C").data⟩] } := by
  have h := (C6_write_fail_fast threeSinkState (("xy").data) (fun k => decide (k = 1)) 1).2
    (by decide) (by decide) (by decide)
  rw [h]
  rfl

/-- The process-wide stream bindings outside any `TeeState`: whether
`sys.stdout` / `sys.stderr` currently point at a tee object. -/
structure Sys where
  stdout_is_tee : Bool
  stderr_is_tee : Bool
deriving DecidableEq, Repr

/-- The file-opening loop of `Tee.begin` when `open` may raise
(`openFails path = true` models `IOError` from `os.makedirs` or
`open(path, "w")`). The loop body does not catch anything, so on a
failure the exception propagates with every previously opened file
still open: the error value carries exactly those sinks. -/
def beginOpen (app : Bool) (openFails : Str → Bool) : List Str → Except (List Sink) (List Sink)
  | [] => Except.ok []
  | p :: ps =>
    let path := initPath app p
    if openFails path then Except.error []
    else
      match beginOpen app openFails ps with
      | Except.ok sinks => Except.ok (⟨path, []⟩ :: sinks)
      | Except.error opened => Except.error (⟨path, []⟩ :: opened)

/-- `Tee.begin` with the failure model: run the opening loop; only
after every file opened successfully are `sys.stdout` (and, with
`redirect_stderr`, `sys.stderr`) repointed at the tee — the
assignments sit after the loop, so on a failure the streams keep
whatever they were. -/
def beginE (PATHS : List Str) (app imm red : Bool) (maxB : Nat)
    (openFails : Str → Bool) (sys : Sys) : Except (List Sink × Sys) (TeeState × Sys) :=
  match beginOpen app openFails PATHS with
  | Except.error opened => Except.error (opened, sys)
  | Except.ok sinks =>
    Except.ok
      ({ beginState PATHS app imm red maxB with logfiles := sinks },
       ⟨true, if red then true else sys.stderr_is_tee⟩)

theorem beginOpen_ok (app : Bool) (openFails : Str → Bool) (PATHS : List Str)
    (h : ∀ q ∈ PATHS, openFails (initPath app q) = false) :
    beginOpen app openFails PATHS =
      Except.ok (PATHS.map fun q => ⟨initPath app q, []⟩) := by
  induction PATHS with
  | nil => rfl
  | cons p ps ih =>
    have h0 : openFails (initPath app p) = false := h p (List.mem_cons_self p ps)
    simp only [beginOpen]
    rw [if_neg (by simp [h0]), ih (fun q hq => h q (List.mem_cons_of_mem p hq))]
    rfl

theorem beginOpen_error (app : Bool) (openFails : Str → Bool) (PATHS : List Str)
    (j : Nat) (p : Str)
    (h1 : ∀ k q, k < j → PATHS.get? k = some q → openFails (initPath app q) = false)
    (h2 : PATHS.get? j = some p) (h3 : openFails (initPath app p) = true) :
    beginOpen app openFails PATHS =
      Except.error ((PATHS.take j).map fun q => ⟨initPath app q, []⟩) := by
  induction PATHS generalizing j with
  | nil => simp [List.get?] at h2
  | cons q0 rest ih =>
    cases j with
    | zero =>
      injection h2 with h2
      subst h2
      simp only [beginOpen]
      rw [if_pos h3]
      rfl
    | succ m =>
      have h0 : openFails (initPath app q0) = false := h1 0 q0 (by omega) rfl
      have h1s : ∀ k q, k < m → rest.get? k = some q → openFails (initPath app q) = false :=
        fun k q hk hq => h1 (k + 1) q (by omega) hq
      simp only [beginOpen]
      rw [if_neg (by simp [h0]), ih m h1s h2]
      rfl

/-- C8: counterexample. With two destinations and an open that fails on
the second file `b_1.log`, `begin()` aborts with the error and the
console stream is not replaced — but the sink already opened for the
first destination (`a_1.log`) is NOT closed before the error surfaces:
the propagated exception leaves it open (the error value carries the
non-empty list of still-open sinks), contradicting the claim that every
previously opened Sink is closed. -/
theorem C8_begin_counterexample :
    beginE [("a.log").data, ("b.log").data] true false true 100
        (fun p => decide (p = ("b_1.log").data)) ⟨false, false⟩ =
      Except.error ([⟨("a_1.log").data, []⟩], ⟨false, false⟩) ∧
    ([⟨("a_1.log").data, []⟩] : List Sink) ≠ [] := by
  refine ⟨rfl, by decide⟩

/-- C8 (amended): if opening the `j`-th destination's file raises
`IOError` while all earlier opens succeeded, the whole `begin()` aborts
with that error, the console stream bindings are left exactly as they
were (the stream swap sits after the loop), and the sinks opened for
the first `j` destinations remain open — they are not closed before the
error surfaces. When every open succeeds, `begin()` yields the active
session state and installs the tee as stdout (and stderr when
redirecting). -/
theorem C8_begin_abort (PATHS : List Str) (app imm red : Bool) (maxB : Nat)
    (openFails : Str → Bool) (sys : Sys) (j : Nat) (p : Str) :
    ((∀ k q, k < j → PATHS.get? k = some q → openFails (initPath app q) = false) →
      PATHS.get? j = some p → openFails (initPath app p) = true →
      beginE PATHS app imm red maxB openFails sys =
        Except.error ((PATHS.take j).map (fun q => ⟨initPath app q, []⟩), sys)) ∧
    ((∀ q ∈ PATHS, openFails (initPath app q) = false) →
      beginE PATHS app imm red maxB openFails sys =
        Except.ok (beginState PATHS app imm red maxB,
          ⟨true, if red then true else sys.stderr_is_tee⟩)) := by
  constructor
  · intro h1 h2 h3
    rw [beginE, beginOpen_error app openFails PATHS j p h1 h2 h3]
  · intro h
    rw [beginE, beginOpen_ok app openFails PATHS h]
    rfl

/-- C8: witness. The failing scenario of the counterexample, through
the amended theorem: the error carries the still-open first sink and
the unchanged stream bindings. -/
theorem C8_begin_abort_witness :
    beginE [("a.log").data, ("b.log").data] true false true 100
        (fun p => decide (p = ("b_1.log").data)) ⟨false, false⟩ =
      Except.error
        (([("a.log").data, ("b.log").data].take 1).map
          (fun q => ⟨initPath true q, []⟩), ⟨false, false⟩) := by
  exact (C8_begin_abort [("a.log").data, ("b.log").data] true false true 100
    (fun p => decide (p = ("b_1.log").data)) ⟨false, false⟩ 1 (("b.log").data)).1
    (fun k q hk hq => by
      have hk0 : k = 0 := by omega
      subst hk0
      injection hq with hq
      subst hq
      decide)
    (by decide) (by decide)

/-- C9: `begin()` with an empty destination tuple succeeds — the source
performs no validation and raises no `ConfigError` (the embedding has
no such failure path at all: the only failures `begin` can surface are
the modelled `IOError`s, and with no destination the opening loop runs
zero times) — the session becomes active (the tee is installed as
stdout) with zero sinks, and every subsequent `write()` reaches only
the console: it appends the payload there and leaves the (empty) sink
list empty. -/
theorem C9_empty_destinations (app imm red : Bool) (maxB : Nat)
    (openFails : Str → Bool) (sys : Sys) (obj : Str) :
    beginE [] app imm red maxB openFails sys =
      Except.ok (beginState [] app imm red maxB,
        ⟨true, if red then true else sys.stderr_is_tee⟩) ∧
    (beginState [] app imm red maxB).logfiles = [] ∧
    (beginState [] app imm red maxB).stdout_is_tee = true ∧
    (Tee.write (beginState [] app imm red maxB) obj).console = obj ∧
    (Tee.write (beginState [] app imm red maxB) obj).logfiles = [] := by
  refine ⟨rfl, rfl, rfl, rfl, rfl⟩

/-- An active two-destination session with arbitrary sink states. -/
def twoSinkState (p0 fp0 c0 p1 fp1 c1 console : Str) (n0 n1 maxB : Nat)
    (app imm red : Bool) : TeeState :=
  { PATHS := [p0, p1]
    append_lognum := app
    immediately_flush := imm
    redirect_stderr := red
    max_logfile_size_bytes := maxB
    logfiles := [⟨fp0, c0⟩, ⟨fp1, c1⟩]
    logfile_numbers := [n0, n1]
    console := console
    stdout_is_tee := true
    stderr_is_tee := red }

/-- C10: when `next_logfiles` rotates the first sink (its count is at
or over the threshold) and the second sink stays under the threshold
even after receiving the announcement, the call prints
`Opened new log file at: <new path>` through the still-installed tee:
the announcement line is appended to the console, lands in the freshly
opened file — which therefore never starts empty — and lands in the
below-threshold second sink, whose content afterwards is its payload
concatenation followed by the announcement bytes (so it differs from
the pure concatenation of the write payloads). -/
theorem C10_announcement (p0 fp0 c0 p1 fp1 c1 console : Str) (n0 n1 maxB : Nat)
    (app imm red : Bool) (fs : FS)
    (h0 : maxB ≤ c0.length)
    (h1 : c1.length + (announcedLine (get_numbered_path p0 (n0 + 1))).length < maxB) :
    next_logfiles (twoSinkState p0 fp0 c0 p1 fp1 c1 console n0 n1 maxB app imm red) fs =
      ({ twoSinkState p0 fp0 c0 p1 fp1 c1 console n0 n1 maxB app imm red with
         logfiles := [⟨get_numbered_path p0 (n0 + 1),
                       announcedLine (get_numbered_path p0 (n0 + 1))⟩,
                      ⟨fp1, c1 ++ announcedLine (get_numbered_path p0 (n0 + 1))⟩]
         logfile_numbers := [n0 + 1, n1]
         console := console ++ announcedLine (get_numbered_path p0 (n0 + 1)) },
       FS.set (FS.set fs fp0 c0) (get_numbered_path p0 (n0 + 1)) []) ∧
    announcedLine (get_numbered_path p0 (n0 + 1)) ≠ [] := by
  constructor
  · have hnot : ¬ (maxB ≤ (c1 ++ announcedLine (get_numbered_path p0 (n0 + 1))).length) := by
      rw [List.length_append]
      omega
    show (List.range 2).foldl rotateStep _ = _
    rw [(by decide : List.range 2 = [0, 1]), List.foldl_cons, List.foldl_cons, List.foldl_nil]
    simp only [rotateStep, twoSinkState, List.get?, printThrough, Tee.write, List.set,
      announcedLine, announcement]
    rw [if_pos h0]
    simp only [List.get?, List.map_cons, List.map_nil, List.append_assoc]
    rw [if_neg (by simpa [announcedLine, announcement, List.append_assoc] using hnot)]
    simp
  · have hpos : 0 < (announcedLine (get_numbered_path p0 (n0 + 1))).length := by
      rw [announcedLine, List.length_append]
      simp
    exact List.length_pos.mp hpos

/-- C10: witness. Threshold 50; the first sink holds 50 bytes and
rotates to `a_2.log`; the second sink holds one byte `z`. After the
call the fresh file already holds the 32-byte announcement line, the
below-threshold sink holds `z` followed by the announcement, and the
console got the announcement too. -/
theorem C10_announcement_witness :
    ((next_logfiles
        (twoSinkState (("a.log").data) (("a_1.log").data)
          (("01234567890123456789012345678901234567890123456789").data)
          (("b.log").data) (("b_1.log").data) (("z").data) [] 1 1 50 true false true)
        []).1.logfiles.get? 0).map Sink.content =
      some (("Opened new log file at: a_2.log\n").data) ∧
    ((next_logfiles
        (twoSinkState (("a.log").data) (("a_1.log").data)
          (("01234567890123456789012345678901234567890123456789").data)
          (("b.log").data) (("b_1.log").data) (("z").data) [] 1 1 50 true false true)
        []).1.logfiles.get? 1).map Sink.content =
      some (("z").data ++ ("Opened new log file at: a_2.log\n").data) ∧
    (next_logfiles
        (twoSinkState (("a.log").data) (("a_1.log").data)
          (("01234567890123456789012345678901234567890123456789").data)
          (("b.log").data) (("b_1.log").data) (("z").data) [] 1 1 50 true false true)
        []).1.console = ("Opened new log file at: a_2.log\n").data := by
  have h := C10_announcement (("a.log").data) (("a_1.log").data)
    (("01234567890123456789012345678901234567890123456789").data)
    (("b.log").data) (("b_1.log").data) (("z").data) [] 1 1 50 true false true []
    (by decide) (by decide)
  rw [h.1]
  refine ⟨by decide, by decide, by decide⟩

/-- The mutable state of a `TeeToRAM` object (Tee.py lines 218-318):
one growable string buffer instead of file sinks (no `logfiles` exist),
plus the captured console and stream bindings. -/
structure RAMState where
  append_lognum : Bool
  redirect_stderr : Bool
  max_logfile_size_bytes : Nat
  string_buffer : Str
  console : Str
  stdout_is_tee : Bool
  stderr_is_tee : Bool
deriving DecidableEq, Repr

/-- `TeeToRAM.begin` (Tee.py lines 245-258): install the object as
stdout (and stderr when redirecting) and create the buffer. NOTE (code
bug): line 258 executes `io.StringIO()`, but the module imports only
`os` and `sys`, never `io` — at runtime this line raises
`NameError: name 'io' is not defined`. The definition models what the
line is documented to do, a fresh empty buffer. -/
def TeeToRAM.begin (app red : Bool) (maxB : Nat) : RAMState :=
  { append_lognum := app
    redirect_stderr := red
    max_logfile_size_bytes := maxB
    string_buffer := []
    console := []
    stdout_is_tee := true
    stderr_is_tee := red }

/-- `TeeToRAM.write` (Tee.py lines 278-285): original stdout first,
then the RAM buffer. -/
def TeeToRAM.write (st : RAMState) (obj : Str) : RAMState :=
  { st with
    console := st.console ++ obj
    string_buffer := st.string_buffer ++ obj }

/-- `TeeToRAM.end` (Tee.py lines 260-270): restore the streams; the
buffer is deliberately not released. -/
def TeeToRAM.endSession (st : RAMState) : RAMState :=
  { st with
    stdout_is_tee := false
    stderr_is_tee := if st.redirect_stderr then false else st.stderr_is_tee }

/-- `TeeToRAM.get_ram_buffer` (Tee.py lines 272-276). -/
def get_ram_buffer (st : RAMState) : Str := st.string_buffer

/-- A `print(s)` during `write_ram_to_logfiles`: if the object is still
installed as stdout it goes through `TeeToRAM.write` (console and
buffer), otherwise only to the console. -/
def ramPrint (st : RAMState) (s : Str) : RAMState :=
  if st.stdout_is_tee then TeeToRAM.write st (s ++ ['\n'])
  else { st with console := st.console ++ s ++ ['\n'] }

/-- The inner `while start_index < total_size_bytes` loop of
`TeeToRAM.write_ram_to_logfiles` (Tee.py lines 301-318) for one `path`,
with explicit fuel. Each iteration consumes at least one byte whenever
`max_logfile_size_bytes ≥ 1`, so fuel `total + 1` is never exhausted
then; with a zero threshold the Python loop would not terminate at
all. The chunk is `ram_buffer_bytes[start_index:end_index]`; with
numbering on it is written (truncating) to the numbered path of the
running `log_number`, otherwise to the bare path every time. -/
def writeChunks (app : Bool) (maxB total : Nat) (bytes path : Str) :
    Nat → Nat → Nat → RAMState → FS → Nat × Nat × RAMState × FS
  | 0, start, num, st, fs => (start, num, st, fs)
  | fuel + 1, start, num, st, fs =>
    if start < total then
      let endIdx := min (start + maxB) total
      let chunk := (bytes.drop start).take (endIdx - start)
      let path_to_use := if app then get_numbered_path path num else path
      let fs1 := FS.set fs path_to_use chunk
      let st1 := ramPrint st (("Wrote log file: ").data ++ path_to_use)
      writeChunks app maxB total bytes path fuel endIdx (num + 1) st1 fs1
    else (start, num, st, fs)

/-- `TeeToRAM.write_ram_to_logfiles` (Tee.py lines 287-318). The byte
buffer is snapshotted once at entry; `start_index` and `log_number` are
initialized once, OUTSIDE the `for path in paths` loop — exactly as in
the source — so they carry over from one destination to the next. -/
def write_ram_to_logfiles (st : RAMState) (paths : List Str) (fs : FS) : RAMState × FS :=
  let bytes := get_ram_buffer st
  let total := bytes.length
  let r := paths.foldl
    (fun (acc : Nat × Nat × RAMState × FS) path =>
      writeChunks st.append_lognum st.max_logfile_size_bytes total bytes path
        (total + 1) acc.1 acc.2.1 acc.2.2.1 acc.2.2.2)
    (0, 1, st, fs)
  (r.2.2.1, r.2.2.2)

theorem foldl_ramWrite_buffer (payloads : List Str) (st : RAMState) :
    (payloads.foldl TeeToRAM.write st).string_buffer =
      st.string_buffer ++ payloads.join := by
  induction payloads generalizing st with
  | nil => simp
  | cons a rest ih =>
    rw [List.foldl_cons, ih (TeeToRAM.write st a)]
    simp [TeeToRAM.write, List.append_assoc]

theorem foldl_ramWrite_console (payloads : List Str) (st : RAMState) :
    (payloads.foldl TeeToRAM.write st).console = st.console ++ payloads.join := by
  induction payloads generalizing st with
  | nil => simp
  | cons a rest ih =>
    rw [List.foldl_cons, ih (TeeToRAM.write st a)]
    simp [TeeToRAM.write, List.append_assoc]

/-- C3: the RAM writer state after `begin()` holds a single empty
buffer (and no file sinks exist in a `RAMState` at all); after any
sequence of writes, `get_ram_buffer()` returns exactly the
concatenation of the payloads in call order (the console receives the
same concatenation); and `end()` leaves the buffer untouched, so the
content remains readable afterwards. This is the behaviour of the code
modulo its missing `import io` (see `TeeToRAM.begin`). -/
theorem C3_ram_buffer (app red : Bool) (maxB : Nat) (payloads : List Str) :
    get_ram_buffer (TeeToRAM.begin app red maxB) = [] ∧
    get_ram_buffer (payloads.foldl TeeToRAM.write (TeeToRAM.begin app red maxB)) =
      payloads.join ∧
    (payloads.foldl TeeToRAM.write (TeeToRAM.begin app red maxB)).console = payloads.join ∧
    get_ram_buffer
        (TeeToRAM.endSession (payloads.foldl TeeToRAM.write (TeeToRAM.begin app red maxB))) =
      payloads.join := by
  refine ⟨rfl, ?_, ?_, ?_⟩
  · rw [get_ram_buffer, foldl_ramWrite_buffer]
    rfl
  · rw [foldl_ramWrite_console]
    rfl
  · show (TeeToRAM.endSession _).string_buffer = _
    rw [TeeToRAM.endSession]
    show (payloads.foldl TeeToRAM.write (TeeToRAM.begin app red maxB)).string_buffer = _
    rw [foldl_ramWrite_buffer]
    rfl

/-- A `TeeToRAM` whose buffer holds the two bytes `ab`, with a one-byte
file-size threshold and numbering on, after `end()` (streams
restored). -/
def ramTwoDest : RAMState :=
  { append_lognum := true
    redirect_stderr := true
    max_logfile_size_bytes := 1
    string_buffer := ("ab").data
    console := []
    stdout_is_tee := false
    stderr_is_tee := false }

/-- Same buffer and threshold with numbering off. -/
def ramBareDest : RAMState :=
  { append_lognum := false
    redirect_stderr := true
    max_logfile_size_bytes := 1
    string_buffer := ("ab").data
    console := []
    stdout_is_tee := false
    stderr_is_tee := false }

/-- C2: the persist operation evaluated at the claim-breaking inputs.
With destinations `a.log` and `b.log`, buffer `ab` and threshold 1,
the first destination receives the two chunk files `a_1.log` = `a` and
`a_2.log` = `b`, but the second destination receives NOTHING — neither
a bare nor any numbered file exists for it — because `start_index` is
initialized outside the destination loop and is already at the end of
the buffer when the second destination is processed. And with
numbering off (single destination `c.log`), every chunk is written to
the bare path, each open truncating the previous chunk, so the file
ends up holding only the final chunk `b` and no numbered `c_1.log` is
ever created — not the claimed bare-first-then-numbered layout. -/
theorem C2_persist_code_bug :
    FS.get (write_ram_to_logfiles ramTwoDest [("a.log").data, ("b.log").data] []).2
        (("a_1.log").data) = some (("a").data) ∧
    FS.get (write_ram_to_logfiles ramTwoDest [("a.log").data, ("b.log").data] []).2
        (("a_2.log").data) = some (("b").data) ∧
    FS.get (write_ram_to_logfiles ramTwoDest [("a.log").data, ("b.log").data] []).2
        (("b.log").data) = none ∧
    FS.get (write_ram_to_logfiles ramTwoDest [("a.log").data, ("b.log").data] []).2
        (("b_1.log").data) = none ∧
    FS.get (write_ram_to_logfiles ramTwoDest [("a.log").data, ("b.log").data] []).2
        (("b_2.log").data) = none ∧
    FS.get (write_ram_to_logfiles ramBareDest [("c.log").data] []).2
        (("c.log").data) = some (("b").data) ∧
    FS.get (write_ram_to_logfiles ramBareDest [("c.log").data] []).2
        (("c_1.log").data) = none := by
  refine ⟨by decide, by decide, by decide, by decide, by decide, by decide, by decide⟩

end TeeSpec
